import Mathlib

/-!
Verification development for the youtube-caption-extractor library
(`src/index.ts`).  The TypeScript source is shallowly embedded: strings are
modelled as `List Char` (via `String.data`), the regular expressions of the
source are hand-compiled to structurally recursive character scanners with
JavaScript regex semantics, asynchronous fetches become explicit function
parameters, and thrown JavaScript exceptions become `Except.error`.

The second source file of the repository (`src/unnamed/part_000`) duplicates
the caption-track selection and transcript-parsing logic verbatim; the
embedding follows `src/index.ts`, whose line numbers are cited throughout.
-/

namespace YCE

/-! ## Data model (interfaces `Subtitle`, `CaptionTrack`, `Options`, `VideoDetails`)

A `CaptionTrack` field that is absent or `undefined` in JavaScript is modelled
as the empty string: every use in the source (`track.vssId === '.' + lang`,
`track.vssId && ...`, `!subtitle?.baseUrl`) treats `undefined` and `""`
identically (both are falsy and both differ from every nonempty literal). -/

structure Subtitle where
  start : String
  dur : String
  text : String
deriving DecidableEq, Repr

structure CaptionTrack where
  baseUrl : String
  vssId : String
deriving DecidableEq, Repr

/-- Options of `src/index.ts`.  `lang = none` models an absent `lang`
(defaulted to `"en"` by destructuring); `pageHtml` and `proxy` are the
optional fields of the interface. -/
structure Options where
  videoID : String
  lang : Option String
  pageHtml : Option String
  proxy : Option (String → String)

structure VideoDetails where
  title : String
  description : String
  subtitles : List Subtitle
deriving DecidableEq, Repr

/-- Thrown JavaScript exceptions of the embedded code. -/
inductive JsError where
  /-- `throw new Error("Proxy function didn't return a valid url")` -/
  | proxyUrlError
  /-- `SyntaxError` thrown by `JSON.parse` on invalid input -/
  | jsonParseError
  /-- `TypeError` from calling `.find` on a non-array `JSON.parse` result -/
  | typeError
deriving DecidableEq, Repr

/-! ## Character classes used by the source's regular expressions -/

/-- JavaScript regex `.` (no `s` flag): any character except a line
terminator. -/
def jsDotChar (c : Char) : Bool :=
  !(c == '\n' || c == '\r' || c == Char.ofNat 0x2028 || c == Char.ofNat 0x2029)

/-- Character class `[\d.]` of `/start="([\d.]+)"/` and `/dur="([\d.]+)"/`. -/
def isNumChar (c : Char) : Bool := c.isDigit || c == '.'

/-- Whitespace removed by JavaScript `String.prototype.trim`. -/
def jsWhitespace (c : Char) : Bool :=
  c == ' ' || c == '\t' || c == '\n' || c == '\r' || c == '\x0b' || c == '\x0c' ||
  c == Char.ofNat 0xa0 || c == Char.ofNat 0xfeff || c == Char.ofNat 0x2028 || c == Char.ofNat 0x2029

/-! ## Generic string scanning helpers (JavaScript semantics) -/

/-- `hay.includes(needle)`: `needle` occurs as a contiguous substring. -/
def containsL (needle : List Char) : List Char → Bool
  | [] => needle.isEmpty
  | c :: rest => needle.isPrefixOf (c :: rest) || containsL needle rest

/-- `s.replace(pat, '')` for a *string* pattern: remove the first occurrence
of `pat` (JavaScript string patterns replace only the first occurrence). -/
def replaceFirstL (pat : List Char) : List Char → List Char
  | [] => []
  | c :: rest =>
    if pat ≠ [] ∧ pat.isPrefixOf (c :: rest) then (c :: rest).drop pat.length
    else c :: replaceFirstL pat rest

/-- `transcript.split('</text>')` (JavaScript `String.prototype.split` with a
string separator keeps empty pieces). -/
def splitTextSegs : List Char → List (List Char)
  | '<' :: '/' :: 't' :: 'e' :: 'x' :: 't' :: '>' :: rest => [] :: splitTextSegs rest
  | c :: rest =>
    match splitTextSegs rest with
    | [] => [[c]]
    | h :: t => (c :: h) :: t
  | [] => [[]]

/-- Truthiness of `line && line.trim()` in the `.filter` step: the line has a
character that is not JavaScript whitespace. -/
def lineKeep (l : List Char) : Bool := !(l.dropWhile jsWhitespace).isEmpty

/-! ## The attribute regexes `/start="([\d.]+)"/` and `/dur="([\d.]+)"/`

`exec` returns the first (leftmost) match; at a candidate position the
pattern is the literal `attr` (`start="` or `dur="`), then a greedy nonempty
run of `[\d.]` characters, then `"`.  Since `"` is not in the class, the run
is exactly the maximal `[\d.]` run and the match succeeds iff it is nonempty
and followed by `"`. -/

def execAttrAt (attr s : List Char) : Option (List Char) :=
  if attr.isPrefixOf s then
    let t := s.drop attr.length
    let run := t.takeWhile isNumChar
    if !run.isEmpty && (t.dropWhile isNumChar).headD ' ' == '"' then some run
    else none
  else none

/-- First match of the attribute pattern anywhere in the line; returns the
captured group (the `[\d.]+` run). -/
def execAttr (attr : List Char) : List Char → Option (List Char)
  | [] => none
  | c :: rest =>
    match execAttrAt attr (c :: rest) with
    | some v => some v
    | none => execAttr attr rest

def startAttr : List Char := ('s' :: 't' :: 'a' :: 'r' :: 't' :: '=' :: '"' :: [])
def durAttr : List Char := ('d' :: 'u' :: 'r' :: '=' :: '"' :: [])

/-! ## `line.replace(/<text.+>/, '')`

Greedy `.+` between the literal `<text` and the literal `>`: within the
maximal run of non-line-terminator characters following `<text`, the match
extends to the *last* `>` of that run, which must lie at distance at least
one after `<text` (the `+`).  The first position where this succeeds wins,
and only the first match is replaced (no `g` flag). -/

/-- Characters after the last `'>'` of `l`, provided that `'>'` is not the
first character of `l` (so that `.+` matches at least one character). -/
def afterLastGtPos (l : List Char) : Option (List Char) :=
  match l.reverse.span (fun c => !(c == '>')) with
  | (afterRev, _ :: beforeRev) =>
    if beforeRev.isEmpty then none else some afterRev.reverse
  | (_, []) => none

/-- Attempt the regex `<text.+>` at the start of `s`; on success return the
remainder of the string after the matched region. -/
def matchTextOpen (s : List Char) : Option (List Char) :=
  if ('<' :: 't' :: 'e' :: 'x' :: 't' :: []).isPrefixOf s then
    let t := s.drop 5
    let stretch := t.takeWhile jsDotChar
    let tail := t.dropWhile jsDotChar
    match afterLastGtPos stretch with
    | some after => some (after ++ tail)
    | none => none
  else none

/-- `line.replace(/<text.+>/, '')`: scan left to right, remove the first
match. -/
def removeOpenTag : List Char → List Char
  | [] => []
  | c :: rest =>
    match matchTextOpen (c :: rest) with
    | some rem => rem
    | none => c :: removeOpenTag rest

/-! ## `.replace(/&amp;/gi, '&')` -/

/-- Case-insensitive test for the five characters of `&amp;`. -/
def ampCheck (c0 c1 c2 c3 c4 : Char) : Bool :=
  c0 == '&' && c1.toLower == 'a' && c2.toLower == 'm' && c3.toLower == 'p' && c4 == ';'

/-- Global, case-insensitive replacement of `&amp;` by `&`; scanning resumes
after each replacement (the substituted `&` is not rescanned). -/
def replaceAmpL : List Char → List Char
  | c0 :: c1 :: c2 :: c3 :: c4 :: rest =>
    if ampCheck c0 c1 c2 c3 c4 then '&' :: replaceAmpL rest
    else c0 :: replaceAmpL (c1 :: c2 :: c3 :: c4 :: rest)
  | l => l

/-! ## `.replace(/<\/?[^>]+(>|$)/g, '')`

At a `<`, the pattern matches iff the next character exists and is not `>`
(backtracking over the optional `/` makes the `/` itself available to
`[^>]+`), and the match then extends through the first following `>`, or to
the end of the string (`$`) when no `>` remains.  The scan is global. -/

def stripTagsGo : Bool → List Char → List Char
  | true, [] => []
  | true, c :: rest => if c == '>' then stripTagsGo false rest else stripTagsGo true rest
  | false, [] => []
  | false, c :: rest =>
    if c == '<' then
      match rest with
      | [] => ['<']
      | d :: _ => if d == '>' then '<' :: stripTagsGo false rest else stripTagsGo true rest
    else c :: stripTagsGo false rest

def stripTagsRegex (l : List Char) : List Char := stripTagsGo false l

/-! ## External text libraries

`he.decode` and `striptags` are third-party collaborators whose code is not
part of this repository. -/

/-- Numeric value of a hexadecimal digit. -/
def hexVal (c : Char) : Nat :=
  if c.isDigit then c.toNat - 48
  else if 'a' ≤ c ∧ c ≤ 'f' then c.toNat - 87
  else if 'A' ≤ c ∧ c ≤ 'F' then c.toNat - 55
  else 0

/-- Modelled from the spec: the named/numeric HTML entities recognised when
"HTML-entity-decoding the result" (`he.decode`).  The standard XML/HTML
escapes and decimal/hexadecimal character references are covered. -/
def decodeEntityName (name : List Char) : Option Char :=
  if name == ('l' :: 't' :: []) then some '<'
  else if name == ('g' :: 't' :: []) then some '>'
  else if name == ('a' :: 'm' :: 'p' :: []) then some '&'
  else if name == ('q' :: 'u' :: 'o' :: 't' :: []) then some '"'
  else if name == ('a' :: 'p' :: 'o' :: 's' :: []) then some '\''
  else if name == ('n' :: 'b' :: 's' :: 'p' :: []) then some (Char.ofNat 0xa0)
  else
    match name with
    | '#' :: 'x' :: ds =>
      if !ds.isEmpty && ds.all (fun c => c.isDigit || ('a' <= c && c <= 'f') || ('A' <= c && c <= 'F')) then
        some (Char.ofNat (ds.foldl (fun n c => n * 16 + hexVal c) 0))
      else none
    | '#' :: ds =>
      if !ds.isEmpty && ds.all (fun c => c.isDigit) then
        some (Char.ofNat (ds.foldl (fun n c => n * 10 + (c.toNat - 48)) 0))
      else none
    | _ => none

/-- Modelled from the spec: "HTML-entity-decoding the result" (`he.decode`).
Scans for `&name;` sequences and decodes the recognised ones; anything else
is kept literally.  The accumulator holds the reversed candidate entity name
once a `&` has been seen. -/
def heDecodeGo : Option (List Char) → List Char → List Char
  | none, [] => []
  | none, c :: rest =>
    if c == '&' then heDecodeGo (some []) rest else c :: heDecodeGo none rest
  | some nameRev, [] => '&' :: nameRev.reverse
  | some nameRev, c :: rest =>
    if c == ';' then
      match decodeEntityName nameRev.reverse with
      | some ch => ch :: heDecodeGo none rest
      | none => '&' :: (nameRev.reverse ++ ';' :: heDecodeGo none rest)
    else if c == '&' then
      '&' :: (nameRev.reverse ++ heDecodeGo (some []) rest)
    else heDecodeGo (some (c :: nameRev)) rest

def heDecode (l : List Char) : List Char := heDecodeGo none l

/-- Modelled from the spec: "stripping any tags that survive decoding"
(`striptags`): text between `<` and the matching `>` is removed, and an
unterminated `<` discards the rest of the input. -/
def stripLibGo : Bool → List Char → List Char
  | _, [] => []
  | true, c :: rest => if c == '>' then stripLibGo false rest else stripLibGo true rest
  | false, c :: rest => if c == '<' then stripLibGo true rest else c :: stripLibGo false rest

def stripLibTags (l : List Char) : List Char := stripLibGo false l

/-! ## The transcript parser (lines 110–149 of `src/index.ts`) -/

/-- The text-cleanup chain applied to one line candidate:
`line.replace(/<text.+>/, '').replace(/&amp;/gi, '&').replace(/<\/?[^>]+(>|$)/g, '')`,
then `he.decode`, then `striptags`. -/
def cleanText (line : List Char) : List Char :=
  stripLibTags (heDecode (stripTagsRegex (replaceAmpL (removeOpenTag line))))

/-- The body of the `.reduce` step for one line: extract `start` and `dur`
with the attribute regexes (skipping the line when either fails) and build
the subtitle object. -/
def parseLine (line : List Char) : Option Subtitle :=
  match execAttr startAttr line, execAttr durAttr line with
  | some st, some du =>
    some { start := String.mk st, dur := String.mk du, text := String.mk (cleanText line) }
  | _, _ => none

def prologL : List Char :=
  "<?xml version=\"1.0\" encoding=\"utf-8\" ?><transcript>".data

def closeTransL : List Char := "</transcript>".data

def closeTextL : List Char := '<' :: '/' :: 't' :: 'e' :: 'x' :: 't' :: '>' :: []

/-- The transcript-to-subtitles computation of `src/index.ts` lines 115–149:
strip the prolog and the closing root tag (first occurrence each), split on
`</text>`, drop empty/whitespace-only candidates, and convert each remaining
candidate, skipping those without both timing attributes. -/
def parseTranscriptL (transcript : List Char) : List Subtitle :=
  (((splitTextSegs (replaceFirstL closeTransL (replaceFirstL prologL transcript))).filter
      lineKeep).filterMap parseLine)

def parseTranscript (transcript : String) : List Subtitle :=
  parseTranscriptL transcript.data

/-! ## The track selector (lines 88–97 of `src/index.ts`)

Tier 3 calls `track.vssId.match('.' + lang)`: the *string* argument is
compiled to a regular expression, so the leading `.` matches any character
that is not a line terminator.  `dotPatMatch lang s` is that regex applied
to `s` by unanchored search; it is faithful for language codes without regex
metacharacters (letters, digits, `-`). -/

def dotPatMatch (lang : List Char) : List Char → Bool
  | [] => false
  | c :: rest => (jsDotChar c && lang.isPrefixOf rest) || dotPatMatch lang rest

def tier1 (lang : String) (t : CaptionTrack) : Bool := t.vssId == "." ++ lang

def tier2 (lang : String) (t : CaptionTrack) : Bool := t.vssId == "a." ++ lang

def tier3 (lang : String) (t : CaptionTrack) : Bool :=
  !t.vssId.isEmpty && dotPatMatch lang.data t.vssId.data

/-- The `find ... || find ... || find ...` chain selecting the subtitle
track.  A found track object is always truthy, and `find` yields `undefined`
(here `none`) when nothing matches, so `||` is `Option.orElse`. -/
def selectTrack (captionTracks : List CaptionTrack) (lang : String) : Option CaptionTrack :=
  ((captionTracks.find? (tier1 lang)).orElse fun _ =>
    captionTracks.find? (tier2 lang)).orElse fun _ =>
    captionTracks.find? (tier3 lang)

/-! ## `JSON.parse`

`JSON.parse` is a JavaScript built-in, not repository code.  The embedding
is a standard recursive-descent JSON reader (fuelled by input length, which
suffices since every step consumes input); `none` models a thrown
`SyntaxError`. -/

inductive Json where
  | null
  | bool (b : Bool)
  | num (raw : List Char)
  | str (s : List Char)
  | arr (elems : List Json)
  | obj (members : List (List Char × Json))

/-- JSON insignificant whitespace. -/
def jsonWs (c : Char) : Bool := c == ' ' || c == '\t' || c == '\n' || c == '\r'

def skipWs (l : List Char) : List Char := l.dropWhile jsonWs

/-- Decode the body of a JSON string literal after the opening quote;
returns the decoded characters and the input after the closing quote. -/
def jsonStringBody : List Char → Option (List Char × List Char)
  | [] => none
  | '"' :: rest => some ([], rest)
  | '\\' :: 'u' :: h1 :: h2 :: h3 :: h4 :: rest =>
    if [h1, h2, h3, h4].all (fun c => c.isDigit || ('a' <= c && c <= 'f') || ('A' <= c && c <= 'F')) then
      match jsonStringBody rest with
      | some (s, r) =>
        some (Char.ofNat (((hexVal h1 * 16 + hexVal h2) * 16 + hexVal h3) * 16 + hexVal h4) :: s, r)
      | none => none
    else none
  | '\\' :: e :: rest =>
    let dec : Option Char :=
      if e == '"' then some '"'
      else if e == '\\' then some '\\'
      else if e == '/' then some '/'
      else if e == 'b' then some '\x08'
      else if e == 'f' then some '\x0c'
      else if e == 'n' then some '\n'
      else if e == 'r' then some '\r'
      else if e == 't' then some '\t'
      else none
    match dec with
    | some c =>
      match jsonStringBody rest with
      | some (s, r) => some (c :: s, r)
      | none => none
    | none => none
  | c :: rest =>
    if c.toNat < 32 then none
    else
      match jsonStringBody rest with
      | some (s, r) => some (c :: s, r)
      | none => none

/-- Read a JSON number (strict grammar: `-? (0 | [1-9][0-9]*) (. [0-9]+)?
([eE] [+-]? [0-9]+)?`); returns its raw characters and the rest. -/
def jsonNumber (l : List Char) : Option (List Char × List Char) :=
  let (sign, l1) :=
    match l with
    | '-' :: r => (['-'], r)
    | _ => (([] : List Char), l)
  let intPart := l1.takeWhile Char.isDigit
  let l2 := l1.dropWhile Char.isDigit
  if intPart.isEmpty then none
  else if intPart.length > 1 && intPart.headD ' ' == '0' then none
  else
    let (fracPart, l3) :=
      match l2 with
      | '.' :: r =>
        let ds := r.takeWhile Char.isDigit
        if ds.isEmpty then (none, l2) else (some ('.' :: ds), r.dropWhile Char.isDigit)
      | _ => (none, l2)
    match fracPart, l2 with
    | none, '.' :: _ => none
    | _, _ =>
      let (expPart, l4) :=
        match l3 with
        | e :: r =>
          if e == 'e' || e == 'E' then
            let (es, r1) :=
              match r with
              | '+' :: r2 => (['+'], r2)
              | '-' :: r2 => (['-'], r2)
              | _ => (([] : List Char), r)
            let ds := r1.takeWhile Char.isDigit
            if ds.isEmpty then (none, l3) else (some (e :: es ++ ds), r1.dropWhile Char.isDigit)
          else (none, l3)
        | [] => (none, l3)
      match expPart, l3 with
      | none, e :: _ =>
        if e == 'e' || e == 'E' then none
        else some (sign ++ intPart ++ (fracPart.getD []) ++ [], l3)
      | none, [] => some (sign ++ intPart ++ (fracPart.getD []) ++ [], l3)
      | some ep, _ => some (sign ++ intPart ++ (fracPart.getD []) ++ ep, l4)

mutual

/-- Parse one JSON value at the head of the (whitespace-skipped) input. -/
def jsonValue : Nat → List Char → Option (Json × List Char)
  | 0, _ => none
  | fuel + 1, l =>
    match l with
    | 'n' :: 'u' :: 'l' :: 'l' :: rest => some (.null, rest)
    | 't' :: 'r' :: 'u' :: 'e' :: rest => some (.bool true, rest)
    | 'f' :: 'a' :: 'l' :: 's' :: 'e' :: rest => some (.bool false, rest)
    | '"' :: rest =>
      match jsonStringBody rest with
      | some (s, r) => some (.str s, r)
      | none => none
    | '[' :: rest =>
      match skipWs rest with
      | ']' :: r => some (.arr [], r)
      | l1 =>
        match jsonElems fuel l1 with
        | some (xs, r) => some (.arr xs, r)
        | none => none
    | '{' :: rest =>
      match skipWs rest with
      | '}' :: r => some (.obj [], r)
      | l1 =>
        match jsonMembers fuel l1 with
        | some (ms, r) => some (.obj ms, r)
        | none => none
    | _ =>
      match jsonNumber l with
      | some (raw, r) => some (.num raw, r)
      | none => none

/-- Parse a nonempty comma-separated list of values up to the closing `]`. -/
def jsonElems : Nat → List Char → Option (List Json × List Char)
  | 0, _ => none
  | fuel + 1, l =>
    match jsonValue fuel l with
    | some (v, r) =>
      match skipWs r with
      | ',' :: r1 =>
        match jsonElems fuel (skipWs r1) with
        | some (xs, r2) => some (v :: xs, r2)
        | none => none
      | ']' :: r1 => some ([v], r1)
      | _ => none
    | none => none

/-- Parse a nonempty comma-separated list of `"key": value` members up to
the closing `}`. -/
def jsonMembers : Nat → List Char → Option (List (List Char × Json) × List Char)
  | 0, _ => none
  | fuel + 1, l =>
    match l with
    | '"' :: rest =>
      match jsonStringBody rest with
      | some (k, r) =>
        match skipWs r with
        | ':' :: r1 =>
          match jsonValue fuel (skipWs r1) with
          | some (v, r2) =>
            match skipWs r2 with
            | ',' :: r3 =>
              match jsonMembers fuel (skipWs r3) with
              | some (ms, r4) => some ((k, v) :: ms, r4)
              | none => none
            | '}' :: r3 => some ([(k, v)], r3)
            | _ => none
          | none => none
        | _ => none
      | none => none
    | _ => none

end

/-- `JSON.parse(text)`: `none` models the thrown `SyntaxError`. -/
def jsonParse (text : List Char) : Option Json :=
  match jsonValue (text.length + 1) (skipWs text) with
  | some (v, rest) => if (skipWs rest).isEmpty then some v else none
  | none => none

/-- Field access on a parsed track record: `JSON.parse` keeps the last
duplicate key; a missing key (`undefined`) and a non-string value are
modelled as `""`, which the selector treats identically (both falsy and
distinct from the nonempty literals it compares against). -/
def getStrField (members : List (List Char × Json)) (key : List Char) : String :=
  match members.reverse.find? (fun m => m.fst == key) with
  | some (_, .str s) => String.mk s
  | _ => ""

/-- One element of the parsed `captionTracks` array viewed as a
`CaptionTrack` (non-object elements have no usable fields). -/
def toTrack : Json → CaptionTrack
  | .obj members => ⟨getStrField members ('b' :: 'a' :: 's' :: 'e' :: 'U' :: 'r' :: 'l' :: []),
                     getStrField members ('v' :: 's' :: 's' :: 'I' :: 'd' :: [])⟩
  | _ => ⟨"", ""⟩

/-! ## Manifest extraction: `/"captionTracks":(\[.*?\])/`

The literal `"captionTracks":` is followed by `\[`, a lazy `.*?` (any
non-line-terminator characters, as few as possible), and `\]`: at the first
position where the literal and `[` occur and a `]` follows within the same
line, the capture runs to that first `]`. -/

def captionTracksKey : List Char := "\"captionTracks\":".data

def captionTracksMarker : List Char := "captionTracks".data

/-- Attempt `"captionTracks":(\[.*?\])` at the start of `s`; returns the
captured group. -/
def matchCapAt (s : List Char) : Option (List Char) :=
  if captionTracksKey.isPrefixOf s then
    match s.drop captionTracksKey.length with
    | '[' :: u =>
      let inner := u.takeWhile (fun c => !(c == ']') && jsDotChar c)
      match u.dropWhile (fun c => !(c == ']') && jsDotChar c) with
      | ']' :: _ => some ('[' :: (inner ++ [']']))
      | _ => none
    | _ => none
  else none

/-- `regex.exec(data)` for the manifest regex: capture at the first position
where the whole pattern matches; `none` models a null `exec` result. -/
def extractCaptionTracksJson : List Char → Option (List Char)
  | [] => none
  | c :: rest =>
    match matchCapAt (c :: rest) with
    | some cap => some cap
    | none => extractCaptionTracksJson rest

/-! ## Title/description extraction
`/<meta name="title" content="([^"]*|[^"]*[^&]quot;[^"]*)">/` (lines 50–55).

The first alternative `[^"]*` matches the maximal quote-free run, which must
be followed by `">`.  Failing that, the second alternative splits the run at
some position (longest first), requires one character that is not `&`
followed by the literal `quot;`, then another quote-free run followed by
`">`. -/

def metaAlt2 (t : List Char) : Option (List Char) :=
  let n := (t.takeWhile (fun c => !(c == '"'))).length
  ((List.range (n + 1)).reverse).findSome? fun k =>
    match t.drop k with
    | c :: rest2 =>
      if !(c == '&') && ('q' :: 'u' :: 'o' :: 't' :: ';' :: []).isPrefixOf rest2 then
        let rest3 := rest2.drop 5
        let y := rest3.takeWhile (fun c => !(c == '"'))
        match rest3.dropWhile (fun c => !(c == '"')) with
        | '"' :: '>' :: _ => some (t.take k ++ c :: ('q' :: 'u' :: 'o' :: 't' :: ';' :: []) ++ y)
        | _ => none
      else none
    | [] => none

/-- Attempt the meta-tag regex at the start of `s` (with `pre` the fixed
prefix `<meta name="..." content="`); returns the captured group. -/
def matchMetaAt (pre s : List Char) : Option (List Char) :=
  if pre.isPrefixOf s then
    let t := s.drop pre.length
    match t.dropWhile (fun c => !(c == '"')) with
    | '"' :: '>' :: _ => some (t.takeWhile (fun c => !(c == '"')))
    | _ => metaAlt2 t
  else none

/-- `data.match(regex)` for the meta-tag regex: first position wins. -/
def execMeta (pre : List Char) : List Char → Option (List Char)
  | [] => none
  | c :: rest =>
    match matchMetaAt pre (c :: rest) with
    | some cap => some cap
    | none => execMeta pre rest

def titleMetaPre : List Char := "<meta name=\"title\" content=\"".data

def descriptionMetaPre : List Char := "<meta name=\"description\" content=\"".data

/-! ## The retrieval orchestrator -/

/-- Truthiness of the optional `pageHtml` string (`if (pageHtml) ...`). -/
def optTruthy : Option String → Bool
  | some s => match s.data with | [] => false | _ => true
  | none => false

def watchUrl (videoID : String) : String := "https://m.youtube.com/watch?v=" ++ videoID

/-- `getYouTubePageHTML` (lines 28–40).  `fetchPage` is the external
`fetch`-and-`text` collaborator.  `proxy?.(pageUrl) || pageUrl` falls back
to `pageUrl` whenever the proxy result is falsy. -/
def getYouTubePageHTML (options : Options) (fetchPage : String → String) :
    Except JsError String :=
  if optTruthy options.pageHtml then .ok (options.pageHtml.getD "")
  else
    let pageUrl := watchUrl options.videoID
    let requestUrl :=
      match options.proxy with
      | some p => if p pageUrl = "" then pageUrl else p pageUrl
      | none => pageUrl
    if requestUrl = "" then .error .proxyUrlError
    else .ok (fetchPage requestUrl)

/-- `getSubtitles` (lines 158–241).  `fetchPage` and `fetchTrack` are the
two external HTTP collaborators; `.error` models a thrown exception. -/
def getSubtitles (options : Options) (fetchPage fetchTrack : String → String) :
    Except JsError (List Subtitle) :=
  match getYouTubePageHTML options fetchPage with
  | .error e => .error e
  | .ok data =>
    if !containsL captionTracksMarker data.data then .ok []
    else
      match extractCaptionTracksJson data.data with
      | none => .ok []
      | some captionTracksJson =>
        match jsonParse captionTracksJson with
        | none => .error .jsonParseError
        | some (.arr elems) =>
          let captionTracks := elems.map toTrack
          match selectTrack captionTracks (options.lang.getD "en") with
          | some subtitle =>
            if subtitle.baseUrl = "" then .ok []
            else .ok (parseTranscript (fetchTrack subtitle.baseUrl))
          | none => .ok []
        | some _ => .error .typeError

/-- `getVideoDetails` (lines 42–156): identical pipeline with title and
description extracted from the page and placeholders when the meta tags are
absent. -/
def getVideoDetails (options : Options) (fetchPage fetchTrack : String → String) :
    Except JsError VideoDetails :=
  match getYouTubePageHTML options fetchPage with
  | .error e => .error e
  | .ok data =>
    let title :=
      match execMeta titleMetaPre data.data with
      | some cap => String.mk cap
      | none => "No title found"
    let description :=
      match execMeta descriptionMetaPre data.data with
      | some cap => String.mk cap
      | none => "No description found"
    if !containsL captionTracksMarker data.data then .ok ⟨title, description, []⟩
    else
      match extractCaptionTracksJson data.data with
      | none => .ok ⟨title, description, []⟩
      | some captionTracksJson =>
        match jsonParse captionTracksJson with
        | none => .error .jsonParseError
        | some (.arr elems) =>
          let captionTracks := elems.map toTrack
          match selectTrack captionTracks (options.lang.getD "en") with
          | some subtitle =>
            if subtitle.baseUrl = "" then .ok ⟨title, description, []⟩
            else .ok ⟨title, description, parseTranscript (fetchTrack subtitle.baseUrl)⟩
          | none => .ok ⟨title, description, []⟩
        | some _ => .error .typeError

/-! ## Specification-side definitions and characterizations

These definitions are written from the specification's wording (not from the
source); the theorems below compare them with the embedded code. -/

/-- `s` matches the regular expression `"." ++ lang` by unanchored search:
some character that is not a line terminator, immediately followed by
`lang`, occurs in `s`.  Propositional characterization of `dotPatMatch`. -/
def DotMatchProp (lang s : List Char) : Prop :=
  ∃ a c b, s = a ++ c :: (lang ++ b) ∧ jsDotChar c = true

/-- `t` is the first element of `tracks`, in original sequence order,
satisfying `p`. -/
def IsFirstWith (p : CaptionTrack → Bool) (tracks : List CaptionTrack) (t : CaptionTrack) : Prop :=
  p t = true ∧ ∃ pre post, tracks = pre ++ t :: post ∧ ∀ u ∈ pre, p u = false

/-- Modelled from the spec: "number = non-negative decimal, digits with
optional fractional part" — one or more digits, optionally followed by `.`
and one or more digits. -/
def isDecimalShaped (l : List Char) : Bool :=
  let rest := l.dropWhile Char.isDigit
  !(l.takeWhile Char.isDigit).isEmpty &&
    (rest.isEmpty ||
      (rest.headD ' ' == '.' && !rest.tail.isEmpty && rest.tail.all Char.isDigit))

/-- Input after the first `'>'` (consuming it), or `[]` when there is none. -/
def dropToGt : List Char → List Char
  | [] => []
  | c :: rest => if c == '>' then rest else dropToGt rest

/-- Modelled from the spec: "removing the opening tag from `<text` up to the
*first* `>`" — at the first occurrence of `<text`, delete through the first
following `>`. -/
def specRemoveOpenFirst : List Char → List Char
  | [] => []
  | c :: rest =>
    if ('<' :: 't' :: 'e' :: 'x' :: 't' :: []).isPrefixOf (c :: rest) then
      dropToGt ((c :: rest).drop 5)
    else c :: specRemoveOpenFirst rest

/-- The claim-side text derivation of C5: remove the opening tag up to the
first `>`, then the unescape/strip/decode/strip chain. -/
def specDeriveTextFirst (l : List Char) : List Char :=
  stripLibTags (heDecode (stripTagsRegex (replaceAmpL (specRemoveOpenFirst l))))

/-- The least position at which the greedy pattern `<text.+>` matches. -/
def firstOpenIdx (l : List Char) : Option Nat :=
  (List.range l.length).find? fun i => (matchTextOpen (l.drop i)).isSome

/-- Amended reading of C5, written from the amended wording: at the leftmost
position where `<text`, followed by at least one same-line character and a
later `>` on the same line, occurs, delete from `<text` through the *last*
such `>`. -/
def specRemoveOpenLast (l : List Char) : List Char :=
  match firstOpenIdx l with
  | some i => l.take i ++ (matchTextOpen (l.drop i)).getD []
  | none => l

/-- A segment carrying both timing attributes (a "well-formed" segment in
the sense of C4). -/
def wellFormedSeg (s : List Char) : Bool :=
  (execAttr startAttr s).isSome && (execAttr durAttr s).isSome

/-- A transcript document assembled from segments, each closed by the fixed
`</text>` delimiter. -/
def docOfSegs (segs : List (List Char)) : List Char :=
  (segs.map (fun s => s ++ closeTextL)).flatten

/-! # Theorems

Helper lemmas first, then one theorem per claim (with counterexamples and
witnesses where applicable). -/

/-! ## Helper lemmas -/

theorem find?_iff_isFirstWith (p : CaptionTrack → Bool) (tracks : List CaptionTrack)
    (t : CaptionTrack) : tracks.find? p = some t ↔ IsFirstWith p tracks t := by
  rw [List.find?_eq_some, IsFirstWith]
  simp only [Bool.not_eq_true']

theorem dotPatMatch_iff (lang s : List Char) :
    dotPatMatch lang s = true ↔ DotMatchProp lang s := by
  induction s with
  | nil =>
    constructor
    · intro h
      exact absurd h (by simp [dotPatMatch])
    · rintro ⟨a, c, b, h, -⟩
      cases a <;> simp at h
  | cons c rest ih =>
    constructor
    · intro h
      rcases Bool.or_eq_true_iff.mp h with h1 | h2
      · rcases Bool.and_eq_true_iff.mp h1 with ⟨hdot, hpre⟩
        rcases List.isPrefixOf_iff_prefix.mp hpre with ⟨b, hb⟩
        exact ⟨[], c, b, by rw [← hb]; rfl, hdot⟩
      · rcases ih.mp h2 with ⟨a, c2, b, heq, hdot⟩
        exact ⟨c :: a, c2, b, by rw [heq]; rfl, hdot⟩
    · rintro ⟨a, c2, b, heq, hdot⟩
      cases a with
      | nil =>
        rw [List.nil_append] at heq
        injection heq with hc hrest
        apply Bool.or_eq_true_iff.mpr
        left
        apply Bool.and_eq_true_iff.mpr
        refine ⟨hc ▸ hdot, List.isPrefixOf_iff_prefix.mpr ?_⟩
        rw [hrest]
        exact List.prefix_append lang b
      | cons x xs =>
        rw [List.cons_append] at heq
        injection heq with hc hrest
        apply Bool.or_eq_true_iff.mpr
        right
        exact ih.mpr ⟨xs, c2, b, hrest, hdot⟩

theorem watchUrl_ne_empty (videoID : String) : watchUrl videoID ≠ "" := by
  intro h
  have hd : (watchUrl videoID).data = [] := by rw [h]
  rw [watchUrl, String.data_append] at hd
  exact absurd (List.append_eq_nil.mp hd).1 (by decide)

theorem execAttrAt_shape {attr s v : List Char} (h : execAttrAt attr s = some v) :
    v ≠ [] ∧ v.all isNumChar = true := by
  unfold execAttrAt at h
  by_cases hp : attr.isPrefixOf s
  · rw [if_pos hp] at h
    by_cases hc : (!((s.drop attr.length).takeWhile isNumChar).isEmpty
        && (((s.drop attr.length).dropWhile isNumChar).headD ' ' == '"')) = true
    · rw [if_pos hc] at h
      have hv : (s.drop attr.length).takeWhile isNumChar = v := Option.some.inj h
      rcases Bool.and_eq_true_iff.mp hc with ⟨hne, -⟩
      constructor
      · intro hnil
        rw [hv, hnil] at hne
        exact absurd hne (by decide)
      · rw [← hv]
        apply List.all_eq_true.mpr
        intro x hx
        exact List.mem_takeWhile_imp hx
    · rw [if_neg hc] at h
      cases h
  · rw [if_neg hp] at h
    cases h

theorem execAttr_shape {attr v : List Char} :
    ∀ {l : List Char}, execAttr attr l = some v → v ≠ [] ∧ v.all isNumChar = true := by
  intro l
  induction l with
  | nil => intro h; cases h
  | cons c rest ih =>
    intro h
    cases hat : execAttrAt attr (c :: rest) with
    | some w =>
      rw [execAttr, hat] at h
      exact Option.some.inj h ▸ execAttrAt_shape hat
    | none =>
      rw [execAttr, hat] at h
      exact ih h

theorem optTruthy_some_of_ne {data : String} (h : data.data ≠ []) :
    optTruthy (some data) = true := by
  rw [optTruthy]
  cases hd : data.data with
  | nil => exact absurd hd h
  | cons c rest => rfl

/-! ## Claim C1 -/

/-- Claim C1 is false as stated: with the single track `{baseUrl := "u",
vssId := "xen"}` and `lang = "en"`, no `vssId` contains the literal
substring `".en"`, yet the selector picks that track, because tier 3 passes
the string `"." ++ lang` to `String.prototype.match`, which compiles it to a
regular expression in which `.` matches any character. -/
theorem claim1_counterexample :
    selectTrack [⟨"u", "xen"⟩] "en" = some ⟨"u", "xen"⟩
    ∧ containsL (".en".data) ("xen".data) = false := by
  constructor
  · rfl
  · decide

/-- Claim C1 (amended): when neither an exact `"." ++ lang` nor an exact
`"a." ++ lang` `vssId` exists, the selector returns the first track whose
nonempty `vssId` matches the regular expression `"." ++ lang` — some
non-line-terminator character immediately followed by `lang` — and returns
no track when no `vssId` matches that pattern.  Stated for language codes
made of letters, digits and `-` (no regex metacharacters). -/
theorem claim1_amended (tracks : List CaptionTrack) (lang : String)
    (_hlang : lang.data.all (fun c => c.isAlphanum || c == '-') = true)
    (h1 : tracks.find? (tier1 lang) = none)
    (h2 : tracks.find? (tier2 lang) = none) :
    selectTrack tracks lang = tracks.find? (tier3 lang)
    ∧ (∀ t, selectTrack tracks lang = some t →
        t ∈ tracks ∧ t.vssId ≠ "" ∧ DotMatchProp lang.data t.vssId.data)
    ∧ ((∀ t ∈ tracks, ¬ DotMatchProp lang.data t.vssId.data) →
        selectTrack tracks lang = none) := by
  have hsel : selectTrack tracks lang = tracks.find? (tier3 lang) := by
    unfold selectTrack
    rw [h1, h2]
    rfl
  refine ⟨hsel, ?_, ?_⟩
  · intro t ht
    rw [hsel] at ht
    have hmem := List.mem_of_find?_eq_some ht
    have hp := List.find?_some ht
    rw [tier3] at hp
    rcases Bool.and_eq_true_iff.mp hp with ⟨hne, hdot⟩
    refine ⟨hmem, ?_, (dotPatMatch_iff _ _).mp hdot⟩
    intro he
    rw [he] at hne
    exact absurd hne (by decide)
  · intro hall
    rw [hsel, List.find?_eq_none]
    intro t hmem hcon
    rw [tier3] at hcon
    exact hall t hmem ((dotPatMatch_iff _ _).mp (Bool.and_eq_true_iff.mp hcon).2)

theorem claim1_amended_witness :
    selectTrack [⟨"u", "xen"⟩] "en" = [(⟨"u", "xen"⟩ : CaptionTrack)].find? (tier3 "en") :=
  (claim1_amended [⟨"u", "xen"⟩] "en" (by decide) (by decide) (by decide)).1

/-! ## Claim C2 -/

/-- Claim C2 is contradicted by the code (code bug): with no pre-supplied
markup and a proxy returning the empty string, `proxy?.(pageUrl) || pageUrl`
falls back to the canonical watch-page URL, so `requestUrl` is never falsy,
the `throw` guarding it is unreachable, and the page *is* fetched.  The
second conjunct shows `getYouTubePageHTML` returns `.ok` on every input, so
the configuration error the claim (and the code's own dead `throw`
statement) describe is never raised. -/
theorem claim2_proxy_fallback :
    getYouTubePageHTML ⟨"abc", none, none, some fun _ => ""⟩ (fun u => "PAGE:" ++ u)
      = .ok ("PAGE:" ++ watchUrl "abc")
    ∧ ∀ (opts : Options) (fetchPage : String → String),
        ∃ s, getYouTubePageHTML opts fetchPage = .ok s := by
  refine ⟨rfl, ?_⟩
  intro opts fetchPage
  unfold getYouTubePageHTML
  by_cases ht : optTruthy opts.pageHtml = true
  · rw [if_pos ht]
    exact ⟨_, rfl⟩
  · rw [if_neg ht]
    cases hp : opts.proxy with
    | none =>
      refine ⟨fetchPage (watchUrl opts.videoID), ?_⟩
      simp only []
      rw [if_neg (watchUrl_ne_empty opts.videoID)]
    | some p =>
      by_cases hpe : p (watchUrl opts.videoID) = ""
      · refine ⟨fetchPage (watchUrl opts.videoID), ?_⟩
        simp only []
        rw [if_pos hpe, if_neg (watchUrl_ne_empty opts.videoID)]
      · refine ⟨fetchPage (p (watchUrl opts.videoID)), ?_⟩
        simp only []
        rw [if_neg hpe, if_neg hpe]

/-! ## Claim C3 -/

/-- Claim C3 is false as stated: on markup containing `captionTracks` where
the regex captures an array-shaped substring that is not valid JSON
(`"captionTracks":[oops]`), `JSON.parse` throws, and the exception
propagates out of `getSubtitles` — it is not surfaced as an empty result. -/
theorem claim3_counterexample :
    getSubtitles ⟨"v", some "en", some "zz \"captionTracks\":[oops] zz", none⟩
        (fun _ => "") (fun _ => "")
      = .error .jsonParseError := rfl

/-- Claim C3 (amended): on markup containing the `captionTracks` marker,
if the array-shaped substring cannot be extracted (the regex fails), the
result is the empty subtitle list without an exception; if it is extracted
but is not valid JSON, the `JSON.parse` exception propagates (the call
throws). -/
theorem claim3_amended (data videoID lang : String)
    (fetchPage fetchTrack : String → String)
    (hmark : containsL captionTracksMarker data.data = true) :
    (extractCaptionTracksJson data.data = none →
        getSubtitles ⟨videoID, some lang, some data, none⟩ fetchPage fetchTrack = .ok [])
    ∧ ∀ j, extractCaptionTracksJson data.data = some j → jsonParse j = none →
        getSubtitles ⟨videoID, some lang, some data, none⟩ fetchPage fetchTrack
          = .error .jsonParseError := by
  have hne : data.data ≠ [] := by
    intro h
    rw [h] at hmark
    exact absurd hmark (by decide)
  have hpage : getYouTubePageHTML ⟨videoID, some lang, some data, none⟩ fetchPage
      = .ok data := by
    rw [getYouTubePageHTML, if_pos (optTruthy_some_of_ne hne)]
    rfl
  constructor
  · intro hex
    rw [getSubtitles, hpage]
    simp [hmark, hex]
  · intro j hex hj
    rw [getSubtitles, hpage]
    simp [hmark, hex, hj]

theorem claim3_amended_witness :
    getSubtitles ⟨"v", some "en", some "a captionTracks page", none⟩
        (fun _ => "") (fun _ => "")
      = .ok [] :=
  (claim3_amended "a captionTracks page" "v" "en" (fun _ => "") (fun _ => "") rfl).1 rfl

/-! ## Claim C6 -/

/-- Claim C6: a well-formed segment with body
`&amp;lt;b&amp;gt;Hi&amp;amp;Bye&amp;lt;/b&amp;gt;` parses to the entry text
`Hi&Bye` — the escaped markup is stripped, not rendered. -/
theorem claim6_entity_roundtrip :
    parseTranscript
        "<text start=\"1\" dur=\"2\">&amp;lt;b&amp;gt;Hi&amp;amp;Bye&amp;lt;/b&amp;gt;</text>"
      = [⟨"1", "2", "Hi&Bye"⟩] := rfl

/-! ## Claim C7 -/

/-- Claim C7: track selection is deterministic (it is a pure function of the
track sequence and `lang`) and tier-ordered: the first track, in original
sequence order, whose `vssId` equals `"." ++ lang` wins; otherwise the first
whose `vssId` equals `"a." ++ lang`; otherwise the tier-3 fallback decides;
and on tracks `a.en`, `.fr` with `lang = "en"` the `a.en` track is
selected. -/
theorem claim7_tier_order (tracks : List CaptionTrack) (lang : String) :
    (∀ t, IsFirstWith (tier1 lang) tracks t → selectTrack tracks lang = some t)
    ∧ ((∀ u ∈ tracks, tier1 lang u = false) →
        ∀ t, IsFirstWith (tier2 lang) tracks t → selectTrack tracks lang = some t)
    ∧ ((∀ u ∈ tracks, tier1 lang u = false ∧ tier2 lang u = false) →
        selectTrack tracks lang = tracks.find? (tier3 lang))
    ∧ selectTrack [⟨"u1", "a.en"⟩, ⟨"u2", ".fr"⟩] "en" = some ⟨"u1", "a.en"⟩ := by
  refine ⟨?_, ?_, ?_, by decide⟩
  · intro t ht
    have h1 : tracks.find? (tier1 lang) = some t := (find?_iff_isFirstWith _ _ _).mpr ht
    unfold selectTrack
    rw [h1]
    rfl
  · intro hall t ht
    have h1 : tracks.find? (tier1 lang) = none :=
      List.find?_eq_none.mpr fun x hx => by simp [hall x hx]
    have h2 : tracks.find? (tier2 lang) = some t := (find?_iff_isFirstWith _ _ _).mpr ht
    unfold selectTrack
    rw [h1, h2]
    rfl
  · intro hall
    have h1 : tracks.find? (tier1 lang) = none :=
      List.find?_eq_none.mpr fun x hx => by simp [(hall x hx).1]
    have h2 : tracks.find? (tier2 lang) = none :=
      List.find?_eq_none.mpr fun x hx => by simp [(hall x hx).2]
    unfold selectTrack
    rw [h1, h2]
    rfl

theorem claim7_tier_order_witness :
    selectTrack [⟨"u1", "a.en"⟩, ⟨"u2", ".fr"⟩] "en" = some ⟨"u1", "a.en"⟩ :=
  (claim7_tier_order [] "en").2.2.2

/-! ## Claim C8 -/

/-- Claim C8 is false as stated: the attribute pattern's character class is
`[\d.]+`, which also accepts strings such as `..` that are not of the form
"digits with an optional fractional part"; the parser still produces the
entry, capturing `..` as the start value. -/
theorem claim8_counterexample :
    parseTranscript "<text start=\"..\" dur=\"5\">hi</text>" = [⟨"..", "5", "hi"⟩]
    ∧ isDecimalShaped (".." : String).data = false := ⟨rfl, rfl⟩

/-- Claim C8 (amended): every extracted `start`/`dur` value is a nonempty
string over digits and `.` (not necessarily a well-formed decimal), captured
as text — the `Subtitle` fields are strings and no numeric conversion is
performed. -/
theorem claim8_amended (line : List Char) (sub : Subtitle)
    (h : parseLine line = some sub) :
    sub.start ≠ "" ∧ sub.start.data.all isNumChar = true
    ∧ sub.dur ≠ "" ∧ sub.dur.data.all isNumChar = true := by
  unfold parseLine at h
  cases hst : execAttr startAttr line with
  | none => rw [hst] at h; cases h
  | some st =>
    cases hdu : execAttr durAttr line with
    | none => rw [hst, hdu] at h; cases h
    | some du =>
      rw [hst, hdu] at h
      have hsub := Option.some.inj h
      rcases execAttr_shape hst with ⟨hst1, hst2⟩
      rcases execAttr_shape hdu with ⟨hdu1, hdu2⟩
      rw [← hsub]
      refine ⟨?_, hst2, ?_, hdu2⟩
      · intro hs
        exact hst1 (by
          have := congrArg String.data hs
          simpa using this)
      · intro hs
        exact hdu1 (by
          have := congrArg String.data hs
          simpa using this)

theorem claim8_amended_witness :
    ("1" : String) ≠ "" ∧ ("1" : String).data.all isNumChar = true
    ∧ ("2" : String) ≠ "" ∧ ("2" : String).data.all isNumChar = true :=
  claim8_amended ("<text start=\"1\" dur=\"2\">hi".data) ⟨"1", "2", "hi"⟩ rfl

/-! ## Claim C9 -/

/-- Claim C9: on identical page markup (same resolved page data) and
identical fetched transcript text, `getVideoDetails` and `getSubtitles`
produce the identical subtitle sequence (and the same thrown exceptions);
`getVideoDetails` only adds title and description around it. -/
theorem claim9_subtitles_agree (options : Options) (fetchPage fetchTrack : String → String) :
    Except.map VideoDetails.subtitles (getVideoDetails options fetchPage fetchTrack)
      = getSubtitles options fetchPage fetchTrack := by
  unfold getVideoDetails getSubtitles
  cases getYouTubePageHTML options fetchPage with
  | error e => rfl
  | ok data =>
    dsimp only
    repeat' split
    all_goals rfl

/-! ## Claim C10 -/

/-- Claim C10: supplying `pageHtml = ""` behaves exactly like supplying no
markup at all — the empty string is falsy, so the orchestrator computes the
watch-page URL and fetches it instead of running extraction on the empty
markup (third conjunct: without a proxy, the fetched URL is the canonical
watch-page URL). -/
theorem claim10_empty_pageHtml (videoID : String) (lang : Option String)
    (proxy : Option (String → String)) (fetchPage fetchTrack : String → String) :
    getYouTubePageHTML ⟨videoID, lang, some "", proxy⟩ fetchPage
      = getYouTubePageHTML ⟨videoID, lang, none, proxy⟩ fetchPage
    ∧ getSubtitles ⟨videoID, lang, some "", proxy⟩ fetchPage fetchTrack
      = getSubtitles ⟨videoID, lang, none, proxy⟩ fetchPage fetchTrack
    ∧ getYouTubePageHTML ⟨videoID, lang, some "", none⟩ fetchPage
      = .ok (fetchPage (watchUrl videoID)) := by
  refine ⟨rfl, rfl, ?_⟩
  show (if watchUrl videoID = "" then (Except.error JsError.proxyUrlError : Except JsError String)
      else .ok (fetchPage (watchUrl videoID))) = .ok (fetchPage (watchUrl videoID))
  rw [if_neg (watchUrl_ne_empty videoID)]

/-! ## Claim C4 -/

theorem containsL_of_isPrefixOf {needle l : List Char}
    (h : needle.isPrefixOf l = true) : containsL needle l = true := by
  cases l with
  | nil =>
    cases needle with
    | nil => rfl
    | cons c rest => simp [List.isPrefixOf] at h
  | cons c rest =>
    rw [containsL, h]
    rfl

theorem containsL_cons_tail {needle : List Char} {c : Char} {l : List Char}
    (h : containsL needle (c :: l) = false) : containsL needle l = false := by
  rw [containsL, Bool.or_eq_false_iff] at h
  exact h.2

/-- No occurrence of `</text>` can start inside a segment `s` that does not
contain it and straddle into a following `</text>` delimiter: the character
`<` occurs in `</text>` only at position 0. -/
theorem closeText_no_straddle (s t : List Char) (hs : s ≠ [])
    (hc : containsL closeTextL s = false) :
    closeTextL.isPrefixOf (s ++ (closeTextL ++ t)) = false := by
  by_contra hcon
  rw [Bool.not_eq_false] at hcon
  have hpre : closeTextL <+: s ++ (closeTextL ++ t) := List.isPrefixOf_iff_prefix.mp hcon
  by_cases hlen : 7 ≤ s.length
  · have hps : closeTextL <+: s :=
      List.prefix_of_prefix_length_le hpre (List.prefix_append s (closeTextL ++ t))
        (by simpa [closeTextL] using hlen)
    have := containsL_of_isPrefixOf (List.isPrefixOf_iff_prefix.mpr hps)
    rw [hc] at this
    cases this
  · have h1 : 1 ≤ s.length := List.length_pos.mpr hs
    have h7 : s.length < 7 := by omega
    have heq7 : closeTextL = (s ++ (closeTextL ++ t)).take 7 :=
      List.prefix_iff_eq_take.mp hpre
    have hdropped : closeTextL.drop s.length = (closeTextL ++ t).take (7 - s.length) := by
      conv_lhs => rw [heq7]
      rw [List.drop_take, List.drop_left]
    have hhead : (closeTextL.drop s.length).head? = some '<' := by
      rw [hdropped]
      obtain ⟨m, hm⟩ : ∃ m, 7 - s.length = m + 1 := ⟨6 - s.length, by omega⟩
      rw [hm]
      rfl
    have hc6 : s.length = 1 ∨ s.length = 2 ∨ s.length = 3 ∨ s.length = 4 ∨ s.length = 5
        ∨ s.length = 6 := by omega
    rcases hc6 with h | h | h | h | h | h <;> rw [h] at hhead <;>
      exact absurd hhead (by decide)

/-- Stepping equation for `splitTextSegs` at a position where the delimiter
does not occur. -/
theorem splitTextSegs_cons_skip (c : Char) (rest : List Char)
    (h : closeTextL.isPrefixOf (c :: rest) = false) :
    splitTextSegs (c :: rest) =
      match splitTextSegs rest with
      | [] => [[c]]
      | h :: t => (c :: h) :: t := by
  rw [splitTextSegs.eq_def]
  split
  · rename_i rest3 heq
    rw [heq] at h
    simp [closeTextL, List.isPrefixOf] at h
  · rename_i c2 rest2 hno heq
    injection heq with h1 h2
    subst h1
    subst h2
    rfl
  · rename_i heq
    cases heq

theorem splitTextSegs_append (s t : List Char) :
    containsL closeTextL s = false →
    splitTextSegs (s ++ (closeTextL ++ t)) = s :: splitTextSegs t := by
  induction s with
  | nil => intro _; rfl
  | cons c s2 ih =>
    intro hc
    have hc2 : containsL closeTextL s2 = false := containsL_cons_tail hc
    have hnp : closeTextL.isPrefixOf ((c :: s2) ++ (closeTextL ++ t)) = false :=
      closeText_no_straddle (c :: s2) t (by simp) hc
    rw [List.cons_append] at hnp ⊢
    rw [splitTextSegs_cons_skip c _ hnp, ih hc2]

theorem splitTextSegs_docOfSegs (segs : List (List Char))
    (h : ∀ s ∈ segs, containsL closeTextL s = false) :
    splitTextSegs (docOfSegs segs) = segs ++ [[]] := by
  induction segs with
  | nil => rfl
  | cons s rest ih =>
    rw [docOfSegs, List.map_cons, List.flatten_cons, List.append_assoc]
    rw [splitTextSegs_append s _ (h s (by simp))]
    rw [show (List.map (fun s => s ++ closeTextL) rest).flatten = docOfSegs rest from rfl]
    rw [ih fun x hx => h x (by simp [hx])]
    rfl

/-- An accepted attribute match implies a non-whitespace character (`s` or
`d`) occurs, so the candidate survives the `line && line.trim()` filter. -/
theorem lineKeep_of_execAttr {attr : List Char} {a : Char}
    (hattr : attr.headD ' ' = a) (hws : jsWhitespace a = false) :
    ∀ {l v : List Char}, execAttr attr l = some v → lineKeep l = true := by
  intro l
  induction l with
  | nil => intro v h; cases h
  | cons c rest ih =>
    intro v h
    cases hat : execAttrAt attr (c :: rest) with
    | some w =>
      have hp : attr.isPrefixOf (c :: rest) = true := by
        by_contra hnp
        rw [Bool.not_eq_true] at hnp
        rw [execAttrAt, if_neg (by simp [hnp])] at hat
        cases hat
      have hca : c = a := by
        cases attr with
        | nil => cases hattr; cases hws
        | cons a0 arest =>
          simp only [List.isPrefixOf, Bool.and_eq_true_iff, beq_iff_eq] at hp
          rw [← hp.1]
          exact hattr
      rw [lineKeep, List.dropWhile]
      rw [hca, hws]
      rfl
    | none =>
      rw [execAttr, hat] at h
      have hk := ih h
      rw [lineKeep, List.dropWhile]
      cases hwc : jsWhitespace c with
      | true => exact hk
      | false => rfl

theorem parseLine_lineKeep {s : List Char} {sub : Subtitle}
    (h : parseLine s = some sub) : lineKeep s = true := by
  unfold parseLine at h
  cases hst : execAttr startAttr s with
  | none => rw [hst] at h; cases h
  | some st => exact @lineKeep_of_execAttr startAttr 's' rfl rfl s st hst

theorem filter_filterMap_of_imp {α β : Type} (l : List α) (p : α → Bool) (f : α → Option β)
    (h : ∀ x b, f x = some b → p x = true) :
    (l.filter p).filterMap f = l.filterMap f := by
  induction l with
  | nil => rfl
  | cons x rest ih =>
    by_cases hp : p x = true
    · rw [List.filter_cons_of_pos hp, List.filterMap_cons, List.filterMap_cons, ih]
    · have hfx : f x = none := by
        cases hfx2 : f x with
        | none => rfl
        | some b => exact absurd (h x b hfx2) (by simpa using hp)
      rw [List.filter_cons_of_neg (by simpa using hp), List.filterMap_cons, hfx, ih]

theorem length_filterMap_eq_length_filter {α β : Type} (l : List α) (f : α → Option β) :
    (l.filterMap f).length = (l.filter fun x => (f x).isSome).length := by
  induction l with
  | nil => rfl
  | cons x rest ih =>
    cases hfx : f x <;> simp [List.filterMap_cons, List.filter_cons, hfx, ih]

theorem parseLine_isSome_iff (s : List Char) :
    (parseLine s).isSome = wellFormedSeg s := by
  unfold parseLine wellFormedSeg
  cases execAttr startAttr s <;> cases execAttr durAttr s <;> rfl

/-- Claim C4: for a transcript document assembled from segments (each closed
by `</text>`, none containing the delimiter, and the document carrying no
prolog/root-close occurrence), the parser returns exactly the entries of the
well-formed segments — those with both `start` and `dur` attributes — in
original document order, skipping the malformed ones; being a total
function, it never throws.  The second conjunct counts: exactly `N` entries
for `N` well-formed segments. -/
theorem claim4_segments (segs : List (List Char))
    (hsegs : ∀ s ∈ segs, containsL closeTextL s = false)
    (hpro : replaceFirstL prologL (docOfSegs segs) = docOfSegs segs)
    (hclose : replaceFirstL closeTransL (docOfSegs segs) = docOfSegs segs) :
    parseTranscriptL (docOfSegs segs) = segs.filterMap parseLine
    ∧ (parseTranscriptL (docOfSegs segs)).length = (segs.filter wellFormedSeg).length := by
  have hmain : parseTranscriptL (docOfSegs segs) = segs.filterMap parseLine := by
    rw [parseTranscriptL, hpro, hclose, splitTextSegs_docOfSegs segs hsegs]
    rw [List.filter_append]
    rw [show List.filter lineKeep [[]] = [] from rfl, List.append_nil]
    exact filter_filterMap_of_imp segs lineKeep parseLine fun x b hb => parseLine_lineKeep hb
  refine ⟨hmain, ?_⟩
  rw [hmain, length_filterMap_eq_length_filter]
  congr 1
  exact List.filter_congr fun x _ => parseLine_isSome_iff x

theorem claim4_segments_witness :
    parseTranscriptL (docOfSegs
        ["<text start=\"1.0\" dur=\"2.5\">Hello".data, "<text start=\"3.0\">broken".data])
      = ["<text start=\"1.0\" dur=\"2.5\">Hello".data,
         "<text start=\"3.0\">broken".data].filterMap parseLine
    ∧ (parseTranscriptL (docOfSegs
        ["<text start=\"1.0\" dur=\"2.5\">Hello".data, "<text start=\"3.0\">broken".data])).length
      = (["<text start=\"1.0\" dur=\"2.5\">Hello".data,
          "<text start=\"3.0\">broken".data].filter wellFormedSeg).length :=
  claim4_segments _ (by decide) (by decide) (by decide)

/-! ## Claim C5 -/

/-- Claim C5 is false as stated: the opening-tag removal `/<text.+>/` is
greedy, deleting through the *last* `>` on the line, so body text containing
`>` is not preserved: on the candidate `<text start="1" dur="2">a>b` the
code produces the text `b`, while the claim's "up to the first `>`" chain
yields `a>b`. -/
theorem claim5_counterexample :
    parseTranscript "<text start=\"1\" dur=\"2\">a>b</text>" = [⟨"1", "2", "b"⟩]
    ∧ specDeriveTextFirst ("<text start=\"1\" dur=\"2\">a>b".data) = "a>b".data
    ∧ ("a>b" : String) ≠ "b" := ⟨rfl, rfl, by decide⟩

theorem firstOpenIdx_cons (c : Char) (rest : List Char) :
    firstOpenIdx (c :: rest) =
      if (matchTextOpen (c :: rest)).isSome then some 0
      else (firstOpenIdx rest).map Nat.succ := by
  rw [firstOpenIdx, List.length_cons, List.range_succ_eq_map, List.find?_cons]
  simp only [List.drop_zero]
  cases h0 : (matchTextOpen (c :: rest)).isSome with
  | true => simp
  | false =>
    rw [if_neg (by simp)]
    show List.find? _ (List.map Nat.succ (List.range rest.length)) = _
    rw [List.find?_map]
    rfl

theorem removeOpenTag_eq_spec (l : List Char) : removeOpenTag l = specRemoveOpenLast l := by
  induction l with
  | nil => rfl
  | cons c rest ih =>
    rw [specRemoveOpenLast, firstOpenIdx_cons]
    cases hm : matchTextOpen (c :: rest) with
    | some rem => simp [removeOpenTag, hm]
    | none =>
      rw [if_neg (by simp)]
      have hL : removeOpenTag (c :: rest) = c :: removeOpenTag rest := by
        simp [removeOpenTag, hm]
      rw [hL, ih, specRemoveOpenLast]
      cases hf : firstOpenIdx rest with
      | none => rfl
      | some j => rfl

/-- Claim C5 (amended): the entry text is derived by removing the opening
tag from `<text` through the *last* `>` of the line (greedy match), then
unescaping `&amp;`, stripping remaining tags, HTML-entity-decoding, and
stripping tags once more after decoding. -/
theorem claim5_amended (line : List Char) (sub : Subtitle)
    (h : parseLine line = some sub) :
    sub.text = String.mk
      (stripLibTags (heDecode (stripTagsRegex (replaceAmpL (specRemoveOpenLast line))))) := by
  unfold parseLine at h
  cases hst : execAttr startAttr line with
  | none => rw [hst] at h; cases h
  | some st =>
    cases hdu : execAttr durAttr line with
    | none => rw [hst, hdu] at h; cases h
    | some du =>
      rw [hst, hdu] at h
      rw [← Option.some.inj h]
      show String.mk (cleanText line) = _
      rw [cleanText, removeOpenTag_eq_spec]

theorem claim5_amended_witness :
    ("hi" : String) = String.mk
      (stripLibTags (heDecode (stripTagsRegex (replaceAmpL
        (specRemoveOpenLast ("<text start=\"1\" dur=\"2\">hi".data)))))) :=
  claim5_amended ("<text start=\"1\" dur=\"2\">hi".data) ⟨"1", "2", "hi"⟩ rfl

end YCE
